import Mathlib

/-!
Verification of the monitoring-stack observability core: trace-context
propagation (W3C `traceparent` codec), span creation and finalization,
log/trace correlation, and the batched span exporter, together with the
`index` request handler of `src/app/rustexample/src/main.rs`.

The handler itself is embedded from the source.  The telemetry operations it
calls live in external crates (opentelemetry, opentelemetry-sdk,
tracing-subscriber) whose code is not part of this repository; those
operations are modelled from the specification (each such definition carries a
doc comment starting `Modelled from the spec:`).
-/

namespace MonStack

/-- Hex digit value of a character, canonical lowercase form.
Modelled from the spec: §4.1 fields are "hex digits" of the canonical
(interoperable, §6 bit-exact) traceparent encoding, which is lowercase. -/
def hexDigitVal (c : Char) : Option Nat :=
  if 48 ≤ c.toNat ∧ c.toNat ≤ 57 then some (c.toNat - 48)
  else if 97 ≤ c.toNat ∧ c.toNat ≤ 102 then some (c.toNat - 87)
  else none

/-- Character for a hex digit value (lowercase): `0`-`9` then `a`-`f`. -/
def hexChar (n : Nat) : Char :=
  Char.ofNat (if n < 10 then 48 + n else 87 + n)

/-- Parse a list of hex characters (most significant first) into a number,
accumulator style; `none` if any character is not a hex digit. -/
def parseHexAux : List Char → Nat → Option Nat
  | [], acc => some acc
  | c :: cs, acc =>
    match hexDigitVal c with
    | some d => parseHexAux cs (acc * 16 + d)
    | none => none

/-- Parse a list of hex characters into a number. -/
def parseHexList (cs : List Char) : Option Nat :=
  parseHexAux cs 0

/-- Render `n` as exactly `w` lowercase hex characters (big-endian). -/
def toHexList : Nat → Nat → List Char
  | 0, _ => []
  | w + 1, n => toHexList w (n / 16) ++ [hexChar (n % 16)]

/-- Split a character list on a separator character.  The parts between
separators, in order; `n` separators yield `n + 1` parts. -/
def splitOnSep (sep : Char) : List Char → List (List Char)
  | [] => [[]]
  | c :: cs =>
    if c = sep then [] :: splitOnSep sep cs
    else
      match splitOnSep sep cs with
      | t :: ts => (c :: t) :: ts
      | [] => [[c]]

/-- Join character-list parts with a separator: inverse of `splitOnSep`. -/
def joinWithSep (sep : Char) : List (List Char) → List Char
  | [] => []
  | [a] => a
  | a :: rest => a ++ sep :: joinWithSep sep rest

/-- An extracted trace context.
Modelled from the spec: §3 TraceContext `{trace_id: 128-bit, span_id: 64-bit,
trace_flags: small bitset, is_remote: bool}`; the version field of the wire
format is not part of the context. -/
structure TraceContext where
  traceId : Nat
  spanId : Nat
  traceFlags : Nat
  isRemote : Bool
  deriving Repr, DecidableEq

/-- The designated trace-context header key (W3C `traceparent`). -/
def traceparentKey : String := "traceparent"

/-- A header carrier: a mapping from case-insensitive string keys to string
values, modelled as an association list (spec §3 HeaderCarrier). -/
abbrev Carrier := List (String × String)

/-- ASCII lowercase of a character. -/
def asciiLower (c : Char) : Char :=
  if 'A' ≤ c ∧ c ≤ 'Z' then Char.ofNat (c.toNat + 32) else c

/-- Characters of a string, ASCII-lowercased (for case-insensitive keys). -/
def lowerChars (s : String) : List Char :=
  s.data.map asciiLower

/-- Case-insensitive single-key lookup on a carrier. -/
def getHeader (carrier : Carrier) (key : String) : Option String :=
  (List.find? (fun p => lowerChars p.1 == lowerChars key) carrier).map (·.2)

/-- Parse a `traceparent` composite value `version-traceid-spanid-flags`
(hyphen-separated lowercase hex fields of widths 2, 32, 16, 2).
Modelled from the spec: §4.1 Context Codec `extract`: none if malformed, if
any field fails to parse as hex of the expected width, or if
`trace_id`/`span_id` are all-zero. -/
def parseTraceparent (s : String) : Option TraceContext :=
  match splitOnSep '-' s.data with
  | [v, t, p, f] =>
    if v.length = 2 ∧ t.length = 32 ∧ p.length = 16 ∧ f.length = 2 then
      match parseHexList v, parseHexList t, parseHexList p, parseHexList f with
      | some _, some tid, some sid, some flags =>
        if tid ≠ 0 ∧ sid ≠ 0 then
          some { traceId := tid, spanId := sid, traceFlags := flags, isRemote := true }
        else none
      | _, _, _, _ => none
    else none
  | _ => none

/-- Extract a trace context from a header carrier.
Modelled from the spec: §4.1 `extract(carrier) -> TraceContext option` parses
the single designated header key; absence of a context is a normal outcome. -/
def extract (carrier : Carrier) : Option TraceContext :=
  (getHeader carrier traceparentKey).bind parseTraceparent

/-- The composite string written on injection: canonical version `00`,
trace id, span id and flags as fixed-width lowercase hex.
Modelled from the spec: §4.1 `inject(context, carrier)` writes the composite
`version-traceid-spanid-flags` string back under the same key. -/
def injectValue (ctx : TraceContext) : String :=
  String.mk (['0', '0'] ++ '-' :: toHexList 32 ctx.traceId ++
    '-' :: toHexList 16 ctx.spanId ++ '-' :: toHexList 2 ctx.traceFlags)

/-- Inject a context into a carrier under the designated key (append-only).
Modelled from the spec: §4.1 `inject`. -/
def inject (ctx : TraceContext) (carrier : Carrier) : Carrier :=
  carrier ++ [(traceparentKey, injectValue ctx)]

/-! ### Span recorder -/

/-- A span event: name plus attributes (spec §3 Span.events). -/
structure SpanEvent where
  name : String
  attributes : List (String × String)
  deriving Repr, DecidableEq

/-- A recorded span (spec §3 Span).
Modelled from the spec: identifiers, parent linkage, attributes, events,
timing, `end_time` optional until finalization. -/
structure SpanRec where
  traceId : Nat
  spanId : Nat
  parentSpanId : Option Nat
  name : String
  startTime : Nat
  endTime : Option Nat
  attributes : List (String × String)
  events : List SpanEvent
  deriving Repr, DecidableEq

/-- Fresh identifier drawn from a seed: a value in `[1, m]`, and when an
identifier to avoid is given, distinct from it.
Modelled from the spec: §4.2 identifiers are "freshly generated
(random ... non-zero)"; freshness (testable property 7) makes a child's
`span_id` different from its parent's.  The random source is modelled as an
explicit seed; `m` is the largest identifier (`2^w - 1` for width `w`). -/
def freshIdAvoiding (m : Nat) : Option Nat → Nat → Nat
  | some a, seed =>
    if 1 + seed % m = a then 1 + (1 + seed % m) % m else 1 + seed % m
  | none, seed => 1 + seed % m

/-- Largest 128-bit trace identifier. -/
def traceIdMax : Nat := 2 ^ 128 - 1

/-- Largest 64-bit span identifier. -/
def spanIdMax : Nat := 2 ^ 64 - 1

/-- Start a span under an optional parent context.
Modelled from the spec: §4.2 `start(name, parent)`: with a parent, the new
span's `trace_id` is the parent's and `parent_span_id` the parent's
`span_id`; otherwise a fresh non-zero `trace_id` is generated and
`parent_span_id` is none; `span_id` is always freshly generated non-zero. -/
def startSpan (name : String) (parent : Option TraceContext) (now : Nat)
    (seedT seedS : Nat) : SpanRec :=
  match parent with
  | some p =>
    { traceId := p.traceId
      spanId := freshIdAvoiding spanIdMax (some p.spanId) seedS
      parentSpanId := some p.spanId
      name := name, startTime := now, endTime := none
      attributes := [], events := [] }
  | none =>
    { traceId := freshIdAvoiding traceIdMax none seedT
      spanId := freshIdAvoiding spanIdMax none seedS
      parentSpanId := none
      name := name, startTime := now, endTime := none
      attributes := [], events := [] }

/-- Append an attribute to a live span; no-op after `end()`.
Modelled from the spec: §4.2 `set_attribute` is an append-only mutation,
a no-op if called after `end()`. -/
def setAttribute (s : SpanRec) (key value : String) : SpanRec :=
  match s.endTime with
  | some _ => s
  | none => { s with attributes := s.attributes ++ [(key, value)] }

/-- Append an event to a live span; no-op after `end()`.
Modelled from the spec: §4.2 `add_event`. -/
def addEvent (s : SpanRec) (name : String) (attrs : List (String × String)) :
    SpanRec :=
  match s.endTime with
  | some _ => s
  | none => { s with events := s.events ++ [⟨name, attrs⟩] }

/-- End a span at time `now`, handing it to the exporter queue `q`.
Modelled from the spec: §4.2 `end()` sets `end_time`, freezes the span and
enqueues it; idempotent: a second call is a no-op and does not re-enqueue. -/
def endSpan (s : SpanRec) (now : Nat) (q : List SpanRec) :
    SpanRec × List SpanRec :=
  match s.endTime with
  | some _ => (s, q)
  | none =>
    let ended := { s with endTime := some now }
    (ended, q ++ [ended])

/-! ### Correlation bridge -/

/-- A structured log record: message plus key-value fields (spec §6). -/
structure LogRecord where
  message : String
  fields : List (String × String)
  deriving Repr, DecidableEq

/-- The correlation scope bound from a span: its trace and span identifiers.
Modelled from the spec: §4.3 `bind(span)` pushes `{trace_id, span_id}` onto
the ambient logging context. -/
def bindScope (s : SpanRec) : Option (Nat × Nat) :=
  some (s.traceId, s.spanId)

/-- Emit a structured log record under an ambient correlation scope.
Modelled from the spec: §4.3 log emissions issued while a scope is active
automatically include `trace_id` and `span_id` fields rendered as canonical
hex (32 and 16 digits); outside any scope no such fields are attached. -/
def emitLog (scope : Option (Nat × Nat)) (msg : String)
    (fields : List (String × String)) : LogRecord :=
  match scope with
  | some (tid, sid) =>
    { message := msg
      fields := ("trace_id", String.mk (toHexList 32 tid)) ::
        ("span_id", String.mk (toHexList 16 sid)) :: fields }
  | none => { message := msg, fields := fields }

/-- Look up a field of a log record by key. -/
def getField (r : LogRecord) (key : String) : Option String :=
  (List.find? (fun p => p.1 == key) r.fields).map (·.2)

/-! ### Batch exporter -/

/-- Maximum batch size (spec §4.4: e.g. 512 spans). -/
def batchMaxSize : Nat := 512

/-- Maximum batch age in milliseconds (spec §4.4: e.g. every 5 seconds). -/
def batchMaxDelayMs : Nat := 5000

/-- State of the accumulating batch: the accumulated spans and the time the
batch began accumulating (spec §4.4 `ACCUMULATING`). -/
structure BatchState where
  acc : List SpanRec
  batchStart : Nat
  deriving Repr, DecidableEq

/-- Events driving the batch cycle: a span enqueued at a given time, or a
timer tick at a given time. -/
inductive BatchEvent where
  | enq (sp : SpanRec) (now : Nat)
  | tick (now : Nat)
  deriving Repr, DecidableEq

/-- One step of the batch cycle, emitting a flushed batch when a threshold
fires.  Modelled from the spec: §4.4 `enqueue` appends; reaching the maximum
size flushes immediately; the periodic timer forces a flush of a non-empty
batch once the maximum delay since the batch began accumulating has elapsed;
a flush removes the whole batch from the accumulator. -/
def stepBatch (st : BatchState) : BatchEvent → BatchState × Option (List SpanRec)
  | .enq sp now =>
    let start := if st.acc.isEmpty then now else st.batchStart
    let acc := st.acc ++ [sp]
    if batchMaxSize ≤ acc.length then ({ acc := [], batchStart := now }, some acc)
    else ({ acc := acc, batchStart := start }, none)
  | .tick now =>
    if st.acc.isEmpty then (st, none)
    else if batchMaxDelayMs ≤ now - st.batchStart then
      ({ acc := [], batchStart := now }, some st.acc)
    else (st, none)

/-- The producer-side exporter queue with its drop counter.
Modelled from the spec: §4.4 backpressure state. -/
structure ExporterState where
  queue : List SpanRec
  dropped : Nat
  deriving Repr, DecidableEq

/-- Enqueue a finished span at the producer side under a hard ceiling `cap`:
when the resident queue has reached the ceiling the newest span is dropped.
Modelled from the spec: §4.4 backpressure: bounded-queue-with-drop, newest
spans dropped at the producer side rather than unbounded growth. -/
def enqueueExport (cap : Nat) (st : ExporterState) (sp : SpanRec) :
    ExporterState :=
  if cap ≤ st.queue.length then { st with dropped := st.dropped + 1 }
  else { st with queue := st.queue ++ [sp] }

/-! ### The index handler, embedded from `src/app/rustexample/src/main.rs` -/

/-- Result of one execution of the `index` handler: the HTTP body returned,
the finished span, the exporter queue after the handler's `end()`, and the
structured log records emitted. -/
structure IndexResult where
  body : String
  span : SpanRec
  queue : List SpanRec
  logs : List LogRecord

/-- The `index` handler (`fn index`, main.rs lines 38-83): extract the parent
context from the headers via the propagator, start a child span, set an
attribute and add an event, bind the span's identifiers into the logging
scope, emit the three structured log records, end the span (handing it to the
exporter queue `q`), and return "Hello, world!".  Randomness and the clock
are explicit parameters (`seedT`, `seedS`, `now`, `endNow`). -/
def indexHandler (headers : Carrier) (now endNow : Nat) (seedT seedS : Nat)
    (q : List SpanRec) : IndexResult :=
  let parentCx := extract headers
  let otelSpan := startSpan "Handle index request" parentCx now seedT seedS
  let otelSpan := setAttribute otelSpan "index" "my-value"
  let otelSpan := addEvent otelSpan "Main span event" [("foo", "1")]
  let scope := bindScope otelSpan
  let logs :=
    [emitLog scope "Processing index request"
        [("endpoint", "/"), ("method", "GET"), ("custom_attribute", "my-value")],
      emitLog scope "Index handler started processing" [],
      emitLog scope "This is a warning log with trace context"
        [("event", "example_warning")]]
  let er := endSpan otelSpan endNow q
  { body := "Hello, world!", span := er.1, queue := er.2, logs := logs }

/-! ### Claim-level well-formedness predicates for header values -/

/-- A header value has the well-formed shape the codec demands: four
hyphen-separated fields of widths 2, 32, 16, 2, every character a hex
digit. -/
def headerWellFormed (s : String) : Bool :=
  match splitOnSep '-' s.data with
  | [v, t, p, f] =>
    (v.length == 2) && (t.length == 32) && (p.length == 16) && (f.length == 2) &&
    (parseHexList v).isSome && (parseHexList t).isSome &&
    (parseHexList p).isSome && (parseHexList f).isSome
  | _ => false

/-- A header value whose trace-id or span-id field is all-zero. -/
def headerZeroId (s : String) : Bool :=
  match splitOnSep '-' s.data with
  | [_, t, p, _] => (parseHexList t == some 0) || (parseHexList p == some 0)
  | _ => false

/-- A canonical header value: well-formed with version field exactly `00`
and non-zero trace and span identifiers. -/
def canonicalHeader (s : String) : Bool :=
  match splitOnSep '-' s.data with
  | [v, t, p, f] =>
    (v == ['0', '0']) && (t.length == 32) && (p.length == 16) && (f.length == 2) &&
    (parseHexList t).isSome && !(parseHexList t == some 0) &&
    (parseHexList p).isSome && !(parseHexList p == some 0) &&
    (parseHexList f).isSome
  | _ => false

/-! ### Lemmas about hex parsing and rendering -/

theorem hexDigitVal_lt {c : Char} {d : Nat} (h : hexDigitVal c = some d) :
    d < 16 := by
  unfold hexDigitVal at h
  split_ifs at h <;> injection h with h2 <;> omega

theorem hexChar_hexDigitVal {c : Char} {d : Nat} (h : hexDigitVal c = some d) :
    hexChar d = c := by
  unfold hexDigitVal at h
  unfold hexChar
  split_ifs at h with h1 h2 <;> injection h with h3
  · rw [if_pos (by omega)]
    have h4 : 48 + d = c.toNat := by omega
    rw [h4, Char.ofNat_toNat]
  · rw [if_neg (by omega)]
    have h4 : 87 + d = c.toNat := by omega
    rw [h4, Char.ofNat_toNat]

theorem parseHexAux_append (cs : List Char) (c : Char) (acc : Nat) :
    parseHexAux (cs ++ [c]) acc =
      (parseHexAux cs acc).bind
        (fun v => (hexDigitVal c).map (fun d => v * 16 + d)) := by
  induction cs generalizing acc with
  | nil =>
    simp only [List.nil_append, parseHexAux]
    cases h : hexDigitVal c <;> simp [parseHexAux, h]
  | cons a as ih =>
    simp only [List.cons_append, parseHexAux]
    cases h : hexDigitVal a <;> simp [h, ih]

theorem toHexList_length (w n : Nat) : (toHexList w n).length = w := by
  induction w generalizing n with
  | zero => rfl
  | succ w ih => simp [toHexList, ih]

theorem toHexList_parseHexList {cs : List Char} {v : Nat}
    (h : parseHexList cs = some v) : toHexList cs.length v = cs := by
  induction cs using List.reverseRecOn generalizing v with
  | nil =>
    simp only [parseHexList, parseHexAux] at h
    cases h
    rfl
  | append_singleton as a ih =>
    rw [parseHexList, parseHexAux_append] at h
    cases hs : parseHexAux as 0 with
    | none => rw [hs] at h; simp at h
    | some w =>
      rw [hs] at h
      cases hd : hexDigitVal a with
      | none => rw [hd] at h; simp at h
      | some d =>
        have hv : w * 16 + d = v := by
          rw [hd] at h
          simpa using h
        subst hv
        have hd16 := hexDigitVal_lt hd
        have h1 : (w * 16 + d) / 16 = w := by omega
        have h2 : (w * 16 + d) % 16 = d := by omega
        rw [List.length_append, List.length_singleton]
        simp only [toHexList, h1, h2]
        rw [ih hs, hexChar_hexDigitVal hd]

/-! ### Lemmas about splitting and joining -/

theorem splitOnSep_ne_nil (sep : Char) (l : List Char) :
    splitOnSep sep l ≠ [] := by
  cases l with
  | nil => exact List.cons_ne_nil _ _
  | cons c cs =>
    unfold splitOnSep
    by_cases h : c = sep
    · rw [if_pos h]
      exact List.cons_ne_nil _ _
    · rw [if_neg h]
      cases hr : splitOnSep sep cs with
      | nil => exact List.cons_ne_nil _ _
      | cons t ts => exact List.cons_ne_nil _ _

theorem joinWithSep_cons_cons (sep c : Char) (r : List Char)
    (rs : List (List Char)) :
    joinWithSep sep ((c :: r) :: rs) = c :: joinWithSep sep (r :: rs) := by
  cases rs <;> rfl

theorem joinWithSep_splitOnSep (sep : Char) (l : List Char) :
    joinWithSep sep (splitOnSep sep l) = l := by
  induction l with
  | nil => rfl
  | cons c cs ih =>
    obtain ⟨r, rs, hr⟩ := List.exists_cons_of_ne_nil (splitOnSep_ne_nil sep cs)
    unfold splitOnSep
    by_cases h : c = sep
    · rw [if_pos h, hr]
      show sep :: joinWithSep sep (r :: rs) = c :: cs
      rw [← hr, ih, h]
    · rw [if_neg h, hr, joinWithSep_cons_cons, ← hr, ih]

/-! ### Lemmas about identifiers and spans -/

theorem freshIdAvoiding_pos (m : Nat) (a : Option Nat) (s : Nat) :
    0 < freshIdAvoiding m a s := by
  cases a with
  | none => simp only [freshIdAvoiding]; omega
  | some x => simp only [freshIdAvoiding]; split_ifs <;> omega

theorem freshIdAvoiding_ne {m : Nat} (hm : 2 ≤ m) (a s : Nat) :
    freshIdAvoiding m (some a) s ≠ a := by
  simp only [freshIdAvoiding]
  have hlt : s % m < m := Nat.mod_lt s (by omega)
  split_ifs with h
  · rcases Nat.lt_or_ge (1 + s % m) m with h2 | h2
    · rw [Nat.mod_eq_of_lt h2]; omega
    · have he : 1 + s % m = m := by omega
      rw [he, Nat.mod_self]; omega
  · exact h

theorem startSpan_endTime (name : String) (parent : Option TraceContext)
    (now seedT seedS : Nat) :
    (startSpan name parent now seedT seedS).endTime = none := by
  cases parent <;> rfl

theorem setAttribute_endTime (s : SpanRec) (k v : String) :
    (setAttribute s k v).endTime = s.endTime := by
  unfold setAttribute
  split <;> simp_all

theorem addEvent_endTime (s : SpanRec) (n : String)
    (attrs : List (String × String)) :
    (addEvent s n attrs).endTime = s.endTime := by
  unfold addEvent
  split <;> simp_all

theorem endSpan_of_none {s : SpanRec} (now : Nat) (q : List SpanRec)
    (h : s.endTime = none) :
    endSpan s now q =
      ({ s with endTime := some now }, q ++ [{ s with endTime := some now }]) := by
  unfold endSpan
  rw [h]

theorem parseTraceparent_eq_none {s : String}
    (h : headerWellFormed s = false ∨ headerZeroId s = true) :
    parseTraceparent s = none := by
  rcases hsplit : splitOnSep '-' s.data with
    _ | ⟨v, _ | ⟨t, _ | ⟨p, _ | ⟨f, _ | ⟨x, xs⟩⟩⟩⟩⟩ <;>
      simp only [parseTraceparent, headerWellFormed, headerZeroId, hsplit] at h ⊢ <;>
      try rfl
  by_cases hlen : v.length = 2 ∧ t.length = 32 ∧ p.length = 16 ∧ f.length = 2
  · rw [if_pos hlen]
    cases hv : parseHexList v <;> cases ht : parseHexList t <;>
      cases hp : parseHexList p <;> cases hf : parseHexList f <;>
        simp only [hv, ht, hp, hf] at h ⊢ <;> try rfl
    obtain ⟨l2, l32, l16, lf2⟩ := hlen
    simp only [l2, l32, l16, lf2, Option.isSome_some, beq_iff_eq, Option.some.injEq,
      beq_self_eq_true, Bool.and_true, Bool.and_eq_false_iff, Bool.true_and,
      Bool.or_eq_true, decide_eq_false_iff_not, decide_eq_true_eq] at h
    rcases h with h | h
    · simp at h
    · rw [if_neg]
      intro ⟨hz1, hz2⟩
      rcases h with h | h <;> simp_all
  · rw [if_neg hlen]

theorem getHeader_self (k v : String) : getHeader [(k, v)] k = some v := by
  unfold getHeader
  rw [List.find?_cons_of_pos _ (by simp)]
  rfl

/-! ### Claim theorems -/

/-- C1: for every header carrier, if the `traceparent` key is absent, or its
value is malformed (wrong field count, wrong hex widths, non-hex characters),
or the trace-id or span-id field is all-zero, then `extract` returns none;
`extract` is a total function, so no error is ever raised. -/
theorem extract_none_of_absent_malformed_or_zero (carrier : Carrier) :
    (getHeader carrier traceparentKey = none → extract carrier = none) ∧
    (∀ s, getHeader carrier traceparentKey = some s →
      (headerWellFormed s = false ∨ headerZeroId s = true) →
      extract carrier = none) := by
  constructor
  · intro h
    simp [extract, h]
  · intro s hs hbad
    simp [extract, hs, parseTraceparent_eq_none hbad]

/-- Witness for C1: a carrier with no `traceparent` header, one with a
non-hex value, and one with an all-zero trace id all extract to none. -/
theorem extract_none_witness :
    extract [] = none ∧
    extract [("traceparent", "zz")] = none ∧
    extract [("traceparent",
      "00-00000000000000000000000000000000-00f067aa0ba902b7-01")] = none :=
  ⟨(extract_none_of_absent_malformed_or_zero []).1 (by decide),
    (extract_none_of_absent_malformed_or_zero
        [("traceparent", "zz")]).2 "zz" (by decide) (Or.inl (by decide)),
    (extract_none_of_absent_malformed_or_zero
        [("traceparent",
          "00-00000000000000000000000000000000-00f067aa0ba902b7-01")]).2
      "00-00000000000000000000000000000000-00f067aa0ba902b7-01" (by decide)
      (Or.inr (by decide))⟩

/-- C2 as stated is false: the valid composite header value
`01-0123456789abcdef0123456789abcdef-0123456789abcdef-01` (version field
`01`, all fields hex of widths 2/32/16/2) extracts successfully, but the
context does not retain the version field, so injection writes version `00`
and does not reproduce the identical string. -/
theorem inject_extract_version_counterexample :
    headerWellFormed
        "01-0123456789abcdef0123456789abcdef-0123456789abcdef-01" = true ∧
    (extract [(traceparentKey,
        "01-0123456789abcdef0123456789abcdef-0123456789abcdef-01")]).map
        injectValue ≠
      some "01-0123456789abcdef0123456789abcdef-0123456789abcdef-01" := by
  exact ⟨by decide, by decide⟩

/-- C2 (amended): for every valid composite header string whose version
field is `00`, injecting the context obtained by extracting it from a
carrier reproduces the identical string under the same key. -/
theorem inject_extract_roundtrip (s : String) (h : canonicalHeader s = true) :
    ∃ ctx, extract [(traceparentKey, s)] = some ctx ∧ injectValue ctx = s ∧
      getHeader (inject ctx []) traceparentKey = some s := by
  unfold canonicalHeader at h
  rcases hsplit : splitOnSep '-' s.data with
    _ | ⟨v, _ | ⟨t, _ | ⟨p, _ | ⟨f, _ | ⟨x, xs⟩⟩⟩⟩⟩ <;> rw [hsplit] at h <;>
      simp at h
  obtain ⟨⟨⟨⟨⟨⟨⟨⟨hv, ht32⟩, hp16⟩, hf2⟩, htidS⟩, htidnz⟩, hsidS⟩, hsidnz⟩,
    hflagsS⟩ := h
  obtain ⟨tid, htid⟩ := Option.isSome_iff_exists.mp htidS
  obtain ⟨sid, hsid⟩ := Option.isSome_iff_exists.mp hsidS
  obtain ⟨flags, hflags⟩ := Option.isSome_iff_exists.mp hflagsS
  subst hv
  have htidz : tid ≠ 0 := by
    rintro rfl
    exact htidnz htid
  have hsidz : sid ≠ 0 := by
    rintro rfl
    exact hsidnz hsid
  have hparse : parseTraceparent s = some ⟨tid, sid, flags, true⟩ := by
    simp only [parseTraceparent, hsplit, htid, hsid, hflags]
    rw [if_pos ⟨rfl, ht32, hp16, hf2⟩]
    have h00 : parseHexList ['0', '0'] = some 0 := by decide
    rw [h00]
    show (if tid ≠ 0 ∧ sid ≠ 0 then
        some (⟨tid, sid, flags, true⟩ : TraceContext) else none) = _
    rw [if_pos ⟨htidz, hsidz⟩]
  have hdata : s.data = ['0', '0'] ++ '-' :: (t ++ '-' :: (p ++ '-' :: f)) := by
    conv_lhs => rw [← joinWithSep_splitOnSep '-' s.data, hsplit]
    simp [joinWithSep]
  have hinj : injectValue ⟨tid, sid, flags, true⟩ = s := by
    unfold injectValue
    have h1 : toHexList 32 tid = t := by
      rw [← ht32]; exact toHexList_parseHexList htid
    have h2 : toHexList 16 sid = p := by
      rw [← hp16]; exact toHexList_parseHexList hsid
    have h3 : toHexList 2 flags = f := by
      rw [← hf2]; exact toHexList_parseHexList hflags
    simp only [h1, h2, h3]
    have : (['0', '0'] ++ '-' :: t ++ '-' :: p ++ '-' :: f) = s.data := by
      rw [hdata]; simp
    rw [this]
  refine ⟨_, ?_, hinj, ?_⟩
  · show (getHeader [(traceparentKey, s)] traceparentKey).bind parseTraceparent = _
    rw [getHeader_self]
    exact hparse
  · show getHeader ([] ++ [(traceparentKey, _)]) traceparentKey = some s
    rw [List.nil_append, getHeader_self, hinj]

/-- Witness for C2 (amended): the canonical example header round-trips. -/
theorem inject_extract_roundtrip_witness :
    canonicalHeader
        "00-4bf92f3577b34da6a3ce929d0e0e4736-00f067aa0ba902b7-01" = true ∧
    ∃ ctx, extract [(traceparentKey,
        "00-4bf92f3577b34da6a3ce929d0e0e4736-00f067aa0ba902b7-01")] =
        some ctx ∧
      injectValue ctx =
        "00-4bf92f3577b34da6a3ce929d0e0e4736-00f067aa0ba902b7-01" ∧
      getHeader (inject ctx []) traceparentKey =
        some "00-4bf92f3577b34da6a3ce929d0e0e4736-00f067aa0ba902b7-01" :=
  ⟨by decide, inject_extract_roundtrip _ (by decide)⟩

/-- C3: a span started with a present parent keeps the parent's trace id and
records the parent's span id as its parent link; with no parent, the parent
link is none and the trace id is freshly generated non-zero; in both cases
the span's own span id is freshly generated non-zero. -/
theorem startSpan_parent_linkage (name : String) (parent : Option TraceContext)
    (now seedT seedS : Nat) :
    (∀ p, parent = some p →
      (startSpan name parent now seedT seedS).traceId = p.traceId ∧
      (startSpan name parent now seedT seedS).parentSpanId = some p.spanId) ∧
    (parent = none →
      (startSpan name parent now seedT seedS).parentSpanId = none ∧
      (startSpan name parent now seedT seedS).traceId ≠ 0) ∧
    (startSpan name parent now seedT seedS).spanId ≠ 0 := by
  refine ⟨?_, ?_, ?_⟩
  · rintro p rfl
    exact ⟨rfl, rfl⟩
  · rintro rfl
    refine ⟨rfl, ?_⟩
    have hp := freshIdAvoiding_pos traceIdMax none seedT
    simp only [startSpan]
    omega
  · cases parent with
    | none =>
      have hp := freshIdAvoiding_pos spanIdMax none seedS
      simp only [startSpan]
      omega
    | some p =>
      have hp := freshIdAvoiding_pos spanIdMax (some p.spanId) seedS
      simp only [startSpan]
      omega

/-- Witness for C3 at concrete parents. -/
theorem startSpan_parent_linkage_witness :
    (startSpan "req" (some ⟨5, 7, 1, true⟩) 0 0 0).traceId = 5 ∧
    (startSpan "req" (some ⟨5, 7, 1, true⟩) 0 0 0).parentSpanId = some 7 ∧
    (startSpan "req" none 0 0 0).parentSpanId = none ∧
    (startSpan "req" none 0 0 0).traceId ≠ 0 ∧
    (startSpan "req" none 0 0 0).spanId ≠ 0 :=
  ⟨((startSpan_parent_linkage "req" (some ⟨5, 7, 1, true⟩) 0 0 0).1 _ rfl).1,
    ((startSpan_parent_linkage "req" (some ⟨5, 7, 1, true⟩) 0 0 0).1 _ rfl).2,
    ((startSpan_parent_linkage "req" none 0 0 0).2.1 rfl).1,
    ((startSpan_parent_linkage "req" none 0 0 0).2.1 rfl).2,
    (startSpan_parent_linkage "req" none 0 0 0).2.2⟩

/-- Whether the sampled bit of the context's flags is set. -/
def sampledFlag (ctx : TraceContext) : Bool :=
  ctx.traceFlags % 2 == 1

/-- The concrete header value of testable property 7. -/
def c4Header : String :=
  "00-4bf92f3577b34da6a3ce929d0e0e4736-00f067aa0ba902b7-01"

/-- C4: extracting the concrete header yields the documented trace id, span
id and the sampled flag; a child span started under that context keeps the
trace id and gets a fresh span id, different from the parent's and
non-zero. -/
theorem end_to_end_concrete_header :
    extract [("traceparent", c4Header)] =
      some ⟨0x4bf92f3577b34da6a3ce929d0e0e4736, 0x00f067aa0ba902b7, 1, true⟩ ∧
    (extract [("traceparent", c4Header)]).map sampledFlag = some true ∧
    ∀ now seedT seedS,
      (startSpan "Handle index request" (extract [("traceparent", c4Header)])
          now seedT seedS).traceId = 0x4bf92f3577b34da6a3ce929d0e0e4736 ∧
      (startSpan "Handle index request" (extract [("traceparent", c4Header)])
          now seedT seedS).spanId ≠ 0x00f067aa0ba902b7 ∧
      (startSpan "Handle index request" (extract [("traceparent", c4Header)])
          now seedT seedS).spanId ≠ 0 := by
  have hex : extract [("traceparent", c4Header)] =
      some ⟨0x4bf92f3577b34da6a3ce929d0e0e4736, 0x00f067aa0ba902b7, 1, true⟩ := by
    decide
  refine ⟨hex, by rw [hex]; rfl, ?_⟩
  intro now seedT seedS
  rw [hex]
  refine ⟨rfl, ?_, ?_⟩
  · show freshIdAvoiding spanIdMax (some 0x00f067aa0ba902b7) seedS ≠
      0x00f067aa0ba902b7
    exact freshIdAvoiding_ne (by decide) _ _
  · show freshIdAvoiding spanIdMax (some 0x00f067aa0ba902b7) seedS ≠ 0
    have hp := freshIdAvoiding_pos spanIdMax (some 0x00f067aa0ba902b7) seedS
    omega

/-- Witness for C4: the child span at concrete seeds keeps the extracted
trace id. -/
theorem end_to_end_concrete_header_witness :
    (startSpan "Handle index request" (extract [("traceparent", c4Header)])
        0 0 0).traceId = 0x4bf92f3577b34da6a3ce929d0e0e4736 :=
  (end_to_end_concrete_header.2.2 0 0 0).1

/-- C5: ending a live span enqueues it exactly once; a second `end()` is a
no-op (same span, same queue), the end time is set once to the end call's
time, and it is at least the start time. -/
theorem endSpan_idempotent (s : SpanRec) (now now2 : Nat) (q : List SpanRec)
    (hlive : s.endTime = none) (hmono : s.startTime ≤ now) :
    (endSpan s now q).2 = q ++ [(endSpan s now q).1] ∧
    (endSpan (endSpan s now q).1 now2 (endSpan s now q).2).1 =
      (endSpan s now q).1 ∧
    (endSpan (endSpan s now q).1 now2 (endSpan s now q).2).2 =
      (endSpan s now q).2 ∧
    (endSpan s now q).1.endTime = some now ∧
    (∀ tEnd, (endSpan s now q).1.endTime = some tEnd →
      (endSpan s now q).1.startTime ≤ tEnd) := by
  rw [endSpan_of_none now q hlive]
  refine ⟨rfl, rfl, rfl, rfl, ?_⟩
  intro tEnd ht
  injection ht with ht
  subst ht
  exact hmono

/-- A sample finished-work span used by witnesses. -/
def sampleSpan : SpanRec :=
  ⟨1, 2, none, "s", 3, none, [], []⟩

/-- Witness for C5 at a concrete live span. -/
theorem endSpan_idempotent_witness :
    (endSpan sampleSpan 5 []).1.endTime = some 5 ∧
    (endSpan (endSpan sampleSpan 5 []).1 9 (endSpan sampleSpan 5 []).2).2 =
      (endSpan sampleSpan 5 []).2 :=
  ⟨(endSpan_idempotent sampleSpan 5 9 [] rfl (by decide)).2.2.2.1,
    (endSpan_idempotent sampleSpan 5 9 [] rfl (by decide)).2.2.1⟩

/-- C6: starting from a queue within the ceiling, any sequence of producer
enqueues (no consumer progress, as under sustained sink failure) keeps the
resident queue within the ceiling; at the ceiling the newest span is dropped
and only the drop counter changes. -/
theorem exporter_queue_bounded (cap : Nat) (st : ExporterState)
    (sps : List SpanRec) (h : st.queue.length ≤ cap) :
    (sps.foldl (enqueueExport cap) st).queue.length ≤ cap ∧
    (∀ sp, cap ≤ st.queue.length →
      enqueueExport cap st sp = { st with dropped := st.dropped + 1 }) := by
  constructor
  · induction sps generalizing st with
    | nil => exact h
    | cons sp rest ih =>
      rw [List.foldl_cons]
      apply ih
      unfold enqueueExport
      split_ifs with hc
      · exact h
      · simp only [List.length_append, List.length_singleton]
        omega
  · intro sp hc
    unfold enqueueExport
    rw [if_pos hc]

/-- Witness for C6: with ceiling 1, two enqueues leave at most one span. -/
theorem exporter_queue_bounded_witness :
    ([sampleSpan, sampleSpan].foldl (enqueueExport 1)
      ⟨[], 0⟩).queue.length ≤ 1 :=
  (exporter_queue_bounded 1 ⟨[], 0⟩ [sampleSpan, sampleSpan] (by decide)).1

/-- C7: a step of the batch cycle flushes exactly when the size threshold
(512 accumulated spans) or the age threshold (5 seconds since the batch
began accumulating) is reached, whichever fires first; a flush empties the
accumulator and carries exactly the accumulated spans, so each batch is
flushed exactly once. -/
theorem batch_flush_threshold (st : BatchState) (e : BatchEvent) :
    ((stepBatch st e).2.isSome = true ↔
      (match e with
        | .enq _ _ => batchMaxSize ≤ st.acc.length + 1
        | .tick now => ¬st.acc = [] ∧ batchMaxDelayMs ≤ now - st.batchStart)) ∧
    ∀ b, (stepBatch st e).2 = some b →
      (stepBatch st e).1.acc = [] ∧
      (match e with
        | .enq sp _ => b = st.acc ++ [sp]
        | .tick _ => b = st.acc) := by
  cases e with
  | enq sp now =>
    constructor
    · by_cases hc : batchMaxSize ≤ st.acc.length + 1
      · have hstep : stepBatch st (.enq sp now) =
            (⟨[], now⟩, some (st.acc ++ [sp])) := by
          simp only [stepBatch]
          rw [if_pos (by simpa using hc)]
        rw [hstep]
        simp [hc]
      · have hstep : (stepBatch st (.enq sp now)).2 = none := by
          simp only [stepBatch]
          rw [if_neg (by simpa using hc)]
        rw [hstep]
        simp [hc]
    · intro b hb
      by_cases hc : batchMaxSize ≤ st.acc.length + 1
      · have hstep : stepBatch st (.enq sp now) =
            (⟨[], now⟩, some (st.acc ++ [sp])) := by
          simp only [stepBatch]
          rw [if_pos (by simpa using hc)]
        rw [hstep] at hb ⊢
        exact ⟨rfl, (Option.some.inj hb).symm⟩
      · have hstep : (stepBatch st (.enq sp now)).2 = none := by
          simp only [stepBatch]
          rw [if_neg (by simpa using hc)]
        rw [hstep] at hb
        cases hb
  | tick now =>
    simp only [stepBatch]
    by_cases he : st.acc.isEmpty
    · rw [if_pos he]
      have hnil : st.acc = [] := List.isEmpty_iff.mp he
      constructor
      · simp [hnil]
      · rintro b hb
        cases hb
    · rw [if_neg he]
      have hne : ¬st.acc = [] := fun hcon => he (List.isEmpty_iff.mpr hcon)
      split_ifs with ht
      · constructor
        · simp [hne, ht]
        · rintro b hb
          injection hb with hb
          subst hb
          exact ⟨rfl, rfl⟩
      · constructor
        · simp [ht]
        · rintro b hb
          cases hb

/-- Witness for C7: a non-empty batch whose age reaches the timer threshold
flushes its accumulated spans and empties the accumulator. -/
theorem batch_flush_threshold_witness :
    (stepBatch ⟨[sampleSpan], 0⟩ (.tick 5000)).1.acc = [] ∧
    (stepBatch ⟨[sampleSpan], 0⟩ (.tick 5000)).2 = some [sampleSpan] :=
  ⟨((batch_flush_threshold ⟨[sampleSpan], 0⟩ (.tick 5000)).2 [sampleSpan]
      (by decide)).1,
    by decide⟩

/-- C8: a log record emitted inside a scope bound from a span carries
`trace_id` and `span_id` fields equal to that span's identifiers in their
canonical hex forms (32 and 16 digits); a record emitted outside any scope
gains no such fields, and carries neither when the caller supplied none. -/
theorem log_correlation (sp : SpanRec) (msg : String)
    (fields : List (String × String)) :
    getField (emitLog (bindScope sp) msg fields) "trace_id" =
      some (String.mk (toHexList 32 sp.traceId)) ∧
    getField (emitLog (bindScope sp) msg fields) "span_id" =
      some (String.mk (toHexList 16 sp.spanId)) ∧
    (String.mk (toHexList 32 sp.traceId)).length = 32 ∧
    (String.mk (toHexList 16 sp.spanId)).length = 16 ∧
    emitLog none msg fields = ⟨msg, fields⟩ ∧
    ((∀ kv ∈ fields, kv.1 ≠ "trace_id" ∧ kv.1 ≠ "span_id") →
      getField (emitLog none msg fields) "trace_id" = none ∧
      getField (emitLog none msg fields) "span_id" = none) := by
  refine ⟨?_, ?_, ?_, ?_, rfl, ?_⟩
  · simp [getField, emitLog, bindScope, List.find?]
  · simp [getField, emitLog, bindScope, List.find?]
  · show (toHexList 32 sp.traceId).length = 32
    exact toHexList_length 32 sp.traceId
  · show (toHexList 16 sp.spanId).length = 16
    exact toHexList_length 16 sp.spanId
  · intro hclean
    constructor
    · simp only [getField, emitLog]
      have hf : List.find? (fun p => p.1 == "trace_id") fields = none := by
        rw [List.find?_eq_none]
        intro kv hkv
        simp only [beq_iff_eq]
        exact (hclean kv hkv).1
      rw [hf]
      rfl
    · simp only [getField, emitLog]
      have hf : List.find? (fun p => p.1 == "span_id") fields = none := by
        rw [List.find?_eq_none]
        intro kv hkv
        simp only [beq_iff_eq]
        exact (hclean kv hkv).2
      rw [hf]
      rfl

/-- Witness for C8 at a concrete span and field list. -/
theorem log_correlation_witness :
    getField (emitLog (bindScope sampleSpan) "m" [("endpoint", "/")])
        "trace_id" = some (String.mk (toHexList 32 sampleSpan.traceId)) ∧
    getField (emitLog none "m" [("endpoint", "/")]) "trace_id" = none :=
  ⟨(log_correlation sampleSpan "m" [("endpoint", "/")]).1,
    ((log_correlation sampleSpan "m" [("endpoint", "/")]).2.2.2.2.2
      (by decide)).1⟩

/-- C9: for every inbound carrier (malformed trace context included), clock
values, random seeds and exporter queue state, the `index` handler completes
and returns "Hello, world!"; the handler is a total function, so telemetry
state never causes a request-path failure. -/
theorem index_returns_hello (headers : Carrier) (now endNow seedT seedS : Nat)
    (q : List SpanRec) :
    (indexHandler headers now endNow seedT seedS q).body = "Hello, world!" :=
  rfl

/-- C10: every execution of the `index` handler ends its span exactly once:
the exporter queue gains exactly that one finished span, and the span's end
time is set (to the handler's single `end()` call). -/
theorem index_span_ended_once (headers : Carrier) (now endNow seedT seedS : Nat)
    (q : List SpanRec) :
    (indexHandler headers now endNow seedT seedS q).queue =
      q ++ [(indexHandler headers now endNow seedT seedS q).span] ∧
    (indexHandler headers now endNow seedT seedS q).span.endTime =
      some endNow := by
  have hlive : (addEvent (setAttribute (startSpan "Handle index request"
      (extract headers) now seedT seedS) "index" "my-value") "Main span event"
      [("foo", "1")]).endTime = none := by
    rw [addEvent_endTime, setAttribute_endTime, startSpan_endTime]
  simp only [indexHandler]
  rw [endSpan_of_none endNow q hlive]
  exact ⟨rfl, rfl⟩

end MonStack
